import Mathlib

/-!
Shallow embedding of the Myrient-Downloader-GUI acquisition pipeline
(src/myrientDownloaderGUI.py, src/lib/threads.py, src/lib/runners.py).

File contents are byte lists, Python strings (in particular filesystem
paths) are character lists, and each thread's observable behaviour is a
pure function from its inputs to the signals it emits and the files it
writes.  Fallible Python code (raised exceptions) is modelled with
Except.
-/

namespace Myrient

/-- Byte contents of a file; each entry is one byte value. -/
abbrev Bytes := List Nat

/-- A Python string (in particular a filesystem path) as its character sequence. -/
abbrev FPath := List Char

/-- Model of the last path component (the characters after the last slash),
as produced by pathlib for a POSIX path. -/
def basename (p : FPath) : FPath :=
  (p.reverse.takeWhile (fun c => c != '/')).reverse

/-- Model of Python pathlib Path(p).stem: the last path component minus its final
extension.  Faithful for components that do not begin with a dot, which is the only
shape the splitter receives. -/
def stem (p : FPath) : FPath :=
  match (basename p).reverse.dropWhile (fun c => c != '.') with
  | [] => basename p
  | _ :: rest => rest.reverse

/-- Model of Python os.path.splitext(p)[0]: the path minus a final extension of its
last component (the directory part is kept).  Faithful for components that do not
begin with a dot. -/
def splitextRoot (p : FPath) : FPath :=
  match p.reverse.dropWhile (fun c => c != '.' && c != '/') with
  | '.' :: rest => rest.reverse
  | _ => p

/-- Decimal digit character, as Python str uses for naturals. -/
def digitChar (d : Nat) : Char := Char.ofNat (48 + d)

/-- Model of Python str(n) for a natural number (decimal digits). -/
def natStr (n : Nat) : FPath :=
  if h : n < 10 then [digitChar n]
  else natStr (n / 10) ++ [digitChar (n % 10)]
termination_by n
decreasing_by
  exact Nat.div_lt_self (by omega) (by omega)

/-- Model of Python str.zfill(w): left-pad with zero characters to width w. -/
def zfill (w : Nat) (s : FPath) : FPath :=
  List.replicate (w - s.length) '0' ++ s

/-- The FAT32 split threshold used by both splitter threads: 4294967295 bytes,
both as the size test and as the chunk size of each read. -/
def splitThreshold : Nat := 4294967295

/-- Ceiling division; equals the Python idiom -(-n // c) computing num_parts,
for positive c. -/
def ceilDiv (n c : Nat) : Nat := (n + c - 1) / c

/-- The read loop shared by both splitter threads: chunk = f.read(chunkSize)
repeatedly, stopping at the first empty read.  Returns the chunks in file byte
order. -/
def readChunks (chunkSize : Nat) (data : Bytes) : List Bytes :=
  if h : data.take chunkSize = [] then []
  else data.take chunkSize :: readChunks chunkSize (data.drop chunkSize)
termination_by data.length
decreasing_by
  rw [List.take_eq_nil_iff] at h
  push_neg at h
  have h1 : 0 < data.length := List.length_pos.mpr h.2
  simp only [List.length_drop]
  omega

/-- Name of the i-th PKG split part, from the f-string built out of
Path(file_path).stem, the literal ".pkg.666" and str(i).zfill(2).  Only the stem of
the input path is used, so the name carries no directory component. -/
def pkgPartName (filePath : FPath) (i : Nat) : FPath :=
  stem filePath ++ (".pkg.666").data ++ zfill 2 (natStr i)

/-- Name of the i-th ISO split part, from os.path.splitext(file_path)[0], the
literal ".iso." and str(i); the directory part of the input path is kept. -/
def isoPartName (filePath : FPath) (i : Nat) : FPath :=
  splitextRoot filePath ++ (".iso.").data ++ natStr i

/-- Observable outcome of SplitPkgThread.run: the status signal, the part files
written as (name, contents) in order, the progress pairs (part number i+1,
num_parts), and whether os.remove deleted the source file. -/
structure SplitPkgResult where
  statusEmitted : Bool
  written : List (FPath × Bytes)
  progress : List (Nat × Nat)
  sourceRemoved : Bool
  deriving DecidableEq

/-- SplitPkgThread.run: below the threshold it only emits status False; otherwise it
writes every chunk of the read loop to a part file, emits one progress message per
part, removes the source file and emits status True. -/
def SplitPkgThread.run (filePath : FPath) (data : Bytes) : SplitPkgResult :=
  if data.length < splitThreshold then
    { statusEmitted := false, written := [], progress := [], sourceRemoved := false }
  else
    { statusEmitted := true,
      written := (readChunks splitThreshold data).enum.map
        (fun q => (pkgPartName filePath q.1, q.2)),
      progress := (List.range (readChunks splitThreshold data).length).map
        (fun i => (i + 1, ceilDiv data.length splitThreshold)),
      sourceRemoved := true }

/-- Observable outcome of SplitIsoThread.run: the status signal, the part files
written, the progress pairs, and the list carried by the finished signal. -/
structure SplitIsoResult where
  statusEmitted : Bool
  written : List (FPath × Bytes)
  progress : List (Nat × Nat)
  finishedEmitted : List FPath
  deriving DecidableEq

/-- SplitIsoThread.run: below the threshold it emits status False and finished with
the empty list; otherwise it writes every chunk of the read loop to a part file,
emits one progress message per part, then emits status True and finished with the
part names (the source file is left in place). -/
def SplitIsoThread.run (filePath : FPath) (data : Bytes) : SplitIsoResult :=
  if data.length < splitThreshold then
    { statusEmitted := false, written := [], progress := [], finishedEmitted := [] }
  else
    { statusEmitted := true,
      written := (readChunks splitThreshold data).enum.map
        (fun q => (isoPartName filePath q.1, q.2)),
      progress := (List.range (readChunks splitThreshold data).length).map
        (fun i => (i + 1, ceilDiv data.length splitThreshold)),
      finishedEmitted := (readChunks splitThreshold data).enum.map
        (fun q => isoPartName filePath q.1) }

/-- The staging directory created by GUIDownloader (self.processing_dir). -/
def processingDir : FPath := ("processing").data

/-- The renamed PKG path built in handle_psn_files by
os.path.join(processing_dir, base_name + ".pkg"). -/
def pkgNewFilePath (base : FPath) : FPath :=
  processingDir ++ ("/").data ++ base ++ (".pkg").data

/-- Model of glob.glob over a pattern of the shape prefix-then-star, the only shape
handle_psn_files builds (new_file_path + ".666*"): the existing paths that start
with the literal part of the pattern. -/
def globStar (pat : FPath) (existing : List FPath) : List FPath :=
  existing.filter (fun f => pat.isPrefixOf f)

/-- subprocess.CalledProcessError carrying the exit code, as raised by
CommandRunner.run. -/
structure CalledProcessError where
  returncode : Int
  deriving DecidableEq

/-- CommandRunner.run: waits for the external process, then raises
CalledProcessError on a non-zero exit code -- there is no try/except around the
raise -- and otherwise emits the finished signal and returns. -/
def CommandRunner.run (returncode : Int) : Except CalledProcessError Unit :=
  if returncode ≠ 0 then .error { returncode := returncode } else .ok ()

/-- Whether the dispatcher advances past the decryption stage for a given tool exit
code: decrypt_ps3_iso connects CommandRunner.finished to decryption_finished, the
only continuation that removes the head queue item and calls process_next_item, and
finished is emitted exactly when CommandRunner.run returns without raising. -/
def decryptStageAdvances (returncode : Int) : Bool :=
  match CommandRunner.run returncode with
  | .ok _ => true
  | .error _ => false

/-- One entry of a zip archive as seen by UnzipRunner through infolist(). -/
structure ZipEntry where
  filename : FPath
  fileSize : Nat
  deriving DecidableEq

/-- Model of zip_path.lower().endswith of the zip suffix. -/
def endsWithZip (p : FPath) : Bool :=
  (".zip").data.isSuffixOf (p.map Char.toLower)

/-- The entry loop of UnzipRunner.run.  running k is the value of the stop flag at
its k-th check (the flag is consulted once per entry, before extracting it).  When
the archive total size is zero the progress expression divides by zero, which
raises ZeroDivisionError, modelled as error; the entries extracted before the raise
stay on disk but are never emitted.  The percentage is modelled with natural
division of extractedSize * 100 by totalSize, which agrees with the float
expression of the source at these magnitudes. -/
def unzipRunFrom (running : Nat → Bool) (totalSize : Nat) (outputPath : FPath)
    (k extractedSize : Nat) : List ZipEntry → Except Unit (List FPath × List Nat)
  | [] => .ok ([], [])
  | e :: rest =>
    if running k then
      if totalSize = 0 then .error ()
      else
        match unzipRunFrom running totalSize outputPath (k + 1)
            (extractedSize + e.fileSize) rest with
        | .error u => .error u
        | .ok (files, progs) =>
          .ok ((outputPath ++ ('/' :: e.filename)) :: files,
               ((extractedSize + e.fileSize) * 100 / totalSize) :: progs)
    else .ok ([], [])

/-- UnzipRunner.run: a path not ending in the zip suffix completes at once emitting
the empty list; otherwise the entries are walked by unzipRunFrom.  An ok value
means the run reached its final finished-signal emission, carrying the extracted
paths and the progress values; an error means the ZeroDivisionError escaped and
nothing was emitted. -/
def UnzipRunner.run (zipPath outputPath : FPath) (entries : List ZipEntry)
    (running : Nat → Bool) : Except Unit (List FPath × List Nat) :=
  if endsWithZip zipPath = false then .ok ([], [])
  else unzipRunFrom running ((entries.map ZipEntry.fileSize).sum) outputPath 0 0 entries

/-- The chunk loop of DownloadThread.download: reads 8192-byte chunks until an empty
read and appends each to the file.  The parameters running and k mirror the stop
flag and the iteration count that a cooperative check would consult; the source
loop contains no test of self.running, so every chunk is written regardless. -/
def downloadWriteLoop (running : Nat → Bool) (k : Nat) : List Bytes → List Bytes
  | [] => []
  | c :: rest => c :: downloadWriteLoop running (k + 1) rest

/-- What GUIDownloader.downloadhelper decides to do: callback at once with the
DEBUG_MODE marker, callback at once with the existing zip path (so no
DownloadThread is constructed and no payload byte is read), or construct and start
a DownloadThread for the URL. -/
inductive HelperAction where
  | debugSkip
  | callbackZip
  | startDownload
  deriving DecidableEq

/-- GUIDownloader.downloadhelper's control flow, given whether debug mode is on,
whether the local zip exists, its size, and the content-length reported by the HEAD
request (none when the header is absent).  When the local file exists and is
smaller than the remote one the helper logs a resume message and falls through to
starting the download; when the sizes are equal it calls back immediately. -/
def downloadhelper (debugMode zipExists : Bool) (localSize : Nat)
    (headContentLength : Option Nat) : HelperAction :=
  if debugMode then .debugSkip
  else if zipExists then
    match headContentLength with
    | none => .callbackZip
    | some remote =>
      if localSize < remote then .startDownload
      else if localSize = remote then .callbackZip
      else .startDownload
  else .startDownload

/-- The Range header of a DownloadThread attempt: bytes from existingSize onward
when the destination file exists, absent otherwise. -/
def buildRequest (fileExists : Bool) (existingSize : Nat) : Option Nat :=
  if fileExists then some existingSize else none

/-- An HTTP response as consumed by DownloadThread.download: status code, the total
parsed from a content-range header, a content-length, and the payload bytes. -/
structure HttpResponse where
  status : Nat
  contentRangeTotal : Option Nat
  contentLength : Option Nat
  body : Bytes
  deriving DecidableEq

/-- The body of one DownloadThread attempt: any status other than 200 or 206 raises
ClientPayloadError; otherwise the payload is appended after the existing local
bytes (the file is opened in append mode, never truncated). -/
def downloadAttempt (localBytes : Bytes) (resp : HttpResponse) : Except Unit Bytes :=
  if resp.status ≠ 200 ∧ resp.status ≠ 206 then .error ()
  else .ok (localBytes ++ resp.body)

/-- Terminal outcome of the retry loop of DownloadThread.download: success at some
attempt, the terminating error re-raised after the last attempt, or the loop body
never entered (zero retries). -/
inductive LoopOutcome where
  | success (i : Nat)
  | exhausted (i : Nat)
  | notRun
  deriving DecidableEq

/-- The backoff slept after failed attempt i: two to the power i plus the random
jitter drawn for that attempt. -/
def backoffDelay (i : Nat) (jitter : ℚ) : ℚ := 2 ^ i + jitter

/-- The retry loop of DownloadThread.download (for i in range(retries)) started at
index i: a successful attempt breaks out; a failed attempt sleeps
backoffDelay i (jitter i) and, when i is the last index, re-raises the error.
Returns the (failed attempt index, delay slept) pairs and the outcome. -/
def retryLoopFrom (succeeds : Nat → Bool) (jitter : Nat → ℚ) (retries i : Nat) :
    List (Nat × ℚ) × LoopOutcome :=
  if h : i < retries then
    if succeeds i then ([], .success i)
    else if i = retries - 1 then
      ([(i, backoffDelay i (jitter i))], .exhausted i)
    else
      ((i, backoffDelay i (jitter i)) :: (retryLoopFrom succeeds jitter retries (i + 1)).1,
       (retryLoopFrom succeeds jitter retries (i + 1)).2)
  else ([], .notRun)
termination_by retries - i
decreasing_by
  all_goals omega

/-- DownloadThread.download's retry loop from attempt 0. -/
def DownloadThread.retryLoop (succeeds : Nat → Bool) (jitter : Nat → ℚ)
    (retries : Nat) : List (Nat × ℚ) × LoopOutcome :=
  retryLoopFrom succeeds jitter retries 0

/-- The three operation tags handled by FileOperationsThread. -/
inductive OpType where
  | rename
  | move
  | remove
  deriving DecidableEq

/-- One filesystem operation dict as built by the GUI: the type tag plus the source
path and, for rename and move, the destination path. -/
inductive Operation where
  | rename (src dst : FPath)
  | move (src dst : FPath)
  | remove (src : FPath)
  deriving DecidableEq

/-- The type tag of an operation. -/
def Operation.opType : Operation → OpType
  | .rename _ _ => .rename
  | .move _ _ => .move
  | .remove _ => .remove

/-- Abstract filesystem: a list of (path, isDirectory) entries. -/
abbrev FS := List (FPath × Bool)

/-- Whether a path exists in the filesystem. -/
def fsHas (fs : FS) (p : FPath) : Bool := fs.any (fun e => e.1 == p)

/-- Whether a path exists and is a directory (os.path.isdir). -/
def fsIsDir (fs : FS) (p : FPath) : Bool := fs.any (fun e => e.1 == p && e.2)

/-- Deletion of a path (os.remove for a file, shutil.rmtree for a directory). -/
def fsDelete (fs : FS) (p : FPath) : FS := fs.filter (fun e => !(e.1 == p))

/-- Relocation of an existing entry to dst (os.rename and shutil.move). -/
def fsMove (fs : FS) (src dst : FPath) : FS :=
  fsDelete fs src ++ [(dst, fsIsDir fs src)]

/-- Effect of one operation: rename and move relocate an existing entry to the
destination, remove deletes an existing entry (recursively for a directory); a
missing source raises, modelled as error. -/
def applyOp (fs : FS) (o : Operation) : Except Unit FS :=
  match o with
  | .rename src dst => if fsHas fs src then .ok (fsMove fs src dst) else .error ()
  | .move src dst => if fsHas fs src then .ok (fsMove fs src dst) else .error ()
  | .remove src => if fsHas fs src then .ok (fsDelete fs src) else .error ()

/-- The progress messages emitted by FileOperationsThread.run, as tagged values:
attempting is the per-type description emitted before acting, performed the
synthetic performed-operation acknowledgment after a success, errorDuring the
caught-exception report. -/
inductive Msg where
  | attempting (o : Operation)
  | performed (t : OpType)
  | errorDuring (t : OpType)
  deriving DecidableEq

/-- Whether a message is the performed-operation acknowledgment. -/
def Msg.isPerformed : Msg → Bool
  | .performed _ => true
  | _ => false

/-- Observable outcome of FileOperationsThread.run: the final filesystem, the
emitted progress messages in order, the per-operation success flags in list order,
and whether the final finished signal was emitted. -/
structure FileOpsResult where
  fs : FS
  log : List Msg
  outcomes : List Bool
  finishedEmitted : Bool
  deriving DecidableEq

/-- FileOperationsThread.run: each operation is attempted in list order inside its
own try/except; a failure is reported and the loop continues with the next
operation; the finished signal is emitted after the loop. -/
def FileOperationsThread.run (ops : List Operation) (fs : FS) : FileOpsResult :=
  match ops with
  | [] => { fs := fs, log := [], outcomes := [], finishedEmitted := true }
  | o :: rest =>
    match applyOp fs o with
    | .ok fs2 =>
      { fs := (FileOperationsThread.run rest fs2).fs,
        log := .attempting o :: .performed o.opType :: (FileOperationsThread.run rest fs2).log,
        outcomes := true :: (FileOperationsThread.run rest fs2).outcomes,
        finishedEmitted := (FileOperationsThread.run rest fs2).finishedEmitted }
    | .error _ =>
      { fs := (FileOperationsThread.run rest fs).fs,
        log := .attempting o :: .errorDuring o.opType :: (FileOperationsThread.run rest fs).log,
        outcomes := false :: (FileOperationsThread.run rest fs).outcomes,
        finishedEmitted := (FileOperationsThread.run rest fs).finishedEmitted }

/-- Staging filesystem for the three-operation scenario: files a and c exist, x
does not. -/
def demoFS : FS := [(("a").data, false), (("c").data, false)]

/-- Three operations of which the middle one (removing the missing x) fails. -/
def demoOps : List Operation :=
  [.rename (("a").data) (("b").data), .remove (("x").data),
   .move (("c").data) (("d").data)]

/-- A queue row: the item text and the system index stored as its user data. -/
abbrev QueueItem := FPath × Nat

/-- The queue-relevant GUI state: the visible queue list and the last serialized
contents of the queue file on disk. -/
structure AppState where
  queueList : List QueueItem
  savedQueue : List QueueItem
  deriving DecidableEq

/-- GUIDownloader.add_to_queue for one selected item: appends unless the same
(text, system index) pair is already present; the queue file is not written. -/
def add_to_queue (st : AppState) (item : QueueItem) : AppState :=
  if st.queueList.contains item then st
  else { st with queueList := st.queueList ++ [item] }

/-- GUIDownloader.remove_from_queue: drops the selected rows, then serializes the
whole queue to the queue file. -/
def remove_from_queue (st : AppState) (selected : QueueItem → Bool) : AppState :=
  { queueList := st.queueList.filter (fun i => !selected i),
    savedQueue := st.queueList.filter (fun i => !selected i) }

/-- GUIDownloader.closeEvent: stops threads and serializes the queue to the queue
file. -/
def closeEvent (st : AppState) : AppState :=
  { st with savedQueue := st.queueList }

/-- Completion of the head queue item: takeItem(0) followed by process_next_item,
which serializes the queue only in its queue-empty branch. -/
def completeHeadItem (st : AppState) : AppState :=
  if st.queueList.tail.isEmpty then
    { queueList := st.queueList.tail, savedQueue := st.queueList.tail }
  else { st with queueList := st.queueList.tail }

end Myrient

namespace Myrient

/-! Splitter lemmas. -/

theorem readChunks_flatten_aux (c : Nat) (hc : c ≠ 0) :
    ∀ (n : Nat) (data : Bytes), data.length ≤ n → (readChunks c data).flatten = data := by
  intro n
  induction n with
  | zero =>
    intro data hlen
    have hd : data = [] := List.eq_nil_of_length_eq_zero (Nat.le_zero.mp hlen)
    subst hd
    rw [readChunks]
    simp
  | succ n ih =>
    intro data hlen
    rw [readChunks]
    split
    · rename_i htake
      rcases List.take_eq_nil_iff.mp htake with h0 | h0
      · exact absurd h0 hc
      · simp [h0]
    · rename_i htake
      have hne : data ≠ [] := by
        intro hd
        exact htake (by rw [hd, List.take_nil])
      have hpos : 0 < data.length := List.length_pos.mpr hne
      have hlen2 : (data.drop c).length ≤ n := by
        simp only [List.length_drop]
        omega
      rw [List.flatten_cons, ih (data.drop c) hlen2]
      exact List.take_append_drop c data

theorem readChunks_flatten (c : Nat) (hc : c ≠ 0) (data : Bytes) :
    (readChunks c data).flatten = data :=
  readChunks_flatten_aux c hc data.length data le_rfl

theorem ceilDiv_step (c len : Nat) (hc : 0 < c) (hlen : 0 < len) :
    (len - c + c - 1) / c + 1 = (len + c - 1) / c := by
  rcases Nat.lt_or_ge len c with hlt | hge
  · have h1 : len - c = 0 := by omega
    rw [h1]
    have h2 : (0 + c - 1) / c = 0 := Nat.div_eq_of_lt (by omega)
    have h3 : (len + c - 1) / c = 1 := Nat.div_eq_of_lt_le (by omega) (by omega)
    rw [h2, h3]
  · have h1 : len - c + c - 1 + c = len + c - 1 := by omega
    rw [← h1, Nat.add_div_right _ hc]

theorem readChunks_length_aux (c : Nat) (hc : c ≠ 0) :
    ∀ (n : Nat) (data : Bytes), data.length ≤ n →
      (readChunks c data).length = ceilDiv data.length c := by
  intro n
  induction n with
  | zero =>
    intro data hlen
    have hd : data = [] := List.eq_nil_of_length_eq_zero (Nat.le_zero.mp hlen)
    subst hd
    rw [readChunks]
    rw [dif_pos List.take_nil]
    simp only [List.length_nil, ceilDiv, Nat.zero_add]
    exact (Nat.div_eq_of_lt (by omega)).symm
  | succ n ih =>
    intro data hlen
    rw [readChunks]
    split
    · rename_i htake
      rcases List.take_eq_nil_iff.mp htake with h0 | h0
      · exact absurd h0 hc
      · subst h0
        simp only [List.length_nil, ceilDiv, Nat.zero_add]
        exact (Nat.div_eq_of_lt (by omega)).symm
    · rename_i htake
      have hne : data ≠ [] := by
        intro hd
        exact htake (by rw [hd, List.take_nil])
      have hpos : 0 < data.length := List.length_pos.mpr hne
      have hlen2 : (data.drop c).length ≤ n := by
        simp only [List.length_drop]
        omega
      simp only [List.length_cons]
      rw [ih (data.drop c) hlen2]
      simp only [ceilDiv, List.length_drop]
      exact ceilDiv_step c data.length (Nat.pos_of_ne_zero hc) hpos

theorem readChunks_length (c : Nat) (hc : c ≠ 0) (data : Bytes) :
    (readChunks c data).length = ceilDiv data.length c :=
  readChunks_length_aux c hc data.length data le_rfl

theorem readChunks_ne_nil (c : Nat) (hc : c ≠ 0) (data : Bytes) (hd : data ≠ []) :
    readChunks c data ≠ [] := by
  rw [readChunks]
  split
  · rename_i htake
    rcases List.take_eq_nil_iff.mp htake with h0 | h0
    · exact absurd h0 hc
    · exact absurd h0 hd
  · simp

theorem readChunks_dropLast_aux (c : Nat) (hc : c ≠ 0) :
    ∀ (n : Nat) (data : Bytes), data.length ≤ n →
      ∀ ch ∈ (readChunks c data).dropLast, ch.length = c := by
  intro n
  induction n with
  | zero =>
    intro data hlen ch hch
    have hd : data = [] := List.eq_nil_of_length_eq_zero (Nat.le_zero.mp hlen)
    subst hd
    rw [readChunks] at hch
    rw [dif_pos List.take_nil] at hch
    simp at hch
  | succ n ih =>
    intro data hlen ch hch
    rw [readChunks] at hch
    split at hch
    · simp at hch
    · rename_i htake
      have hne : data ≠ [] := by
        intro hd
        exact htake (by rw [hd, List.take_nil])
      have hpos : 0 < data.length := List.length_pos.mpr hne
      rcases hrest : readChunks c (data.drop c) with _ | ⟨b, bs⟩
      · rw [hrest] at hch
        simp at hch
      · rw [hrest] at hch
        rw [List.dropLast_cons₂] at hch
        rcases List.mem_cons.mp hch with heq | hch2
      
        · subst heq
          have hdropne : data.drop c ≠ [] := by
            intro hdrop
            rw [hdrop] at hrest
            rw [readChunks] at hrest
            rw [dif_pos List.take_nil] at hrest
            exact List.noConfusion hrest
          have hlarge : c < data.length := by
            by_contra hle
            push_neg at hle
            exact hdropne (List.drop_eq_nil_of_le hle)
          rw [List.length_take]
          omega
        · rw [← hrest] at hch2
          have hlen2 : (data.drop c).length ≤ n := by
            simp only [List.length_drop]
            omega
          exact ih (data.drop c) hlen2 ch hch2

end Myrient

namespace Myrient

/-! Path and part-name lemmas. -/

theorem mem_takeWhile_pred {α : Type} {q : α → Bool} :
    ∀ {l : List α} {a : α}, a ∈ l.takeWhile q → q a = true := by
  intro l
  induction l with
  | nil =>
    intro a h
    simp [List.takeWhile_nil] at h
  | cons b bs ih =>
    intro a h
    rw [List.takeWhile_cons] at h
    by_cases hb : q b = true
    · rw [if_pos hb] at h
      rcases List.mem_cons.mp h with heq | h2
      · rw [heq]
        exact hb
      · exact ih h2
    · rw [if_neg hb] at h
      simp at h

theorem mem_of_mem_dropWhile {α : Type} {q : α → Bool} :
    ∀ {l : List α} {a : α}, a ∈ l.dropWhile q → a ∈ l := by
  intro l
  induction l with
  | nil =>
    intro a h
    simp [List.dropWhile_nil] at h
  | cons b bs ih =>
    intro a h
    rw [List.dropWhile_cons] at h
    by_cases hb : q b = true
    · rw [if_pos hb] at h
      exact List.mem_cons_of_mem b (ih h)
    · rw [if_neg hb] at h
      exact h

theorem slash_not_mem_basename (p : FPath) : '/' ∉ basename p := by
  intro h
  rw [basename, List.mem_reverse] at h
  have h2 := mem_takeWhile_pred h
  simp at h2

theorem mem_basename_of_mem_stem (p : FPath) {a : Char} (h : a ∈ stem p) :
    a ∈ basename p := by
  unfold stem at h
  split at h
  · exact h
  · rename_i c rest heq
    rw [List.mem_reverse] at h
    have h2 : a ∈ (basename p).reverse.dropWhile (fun c => c != '.') := by
      rw [heq]
      exact List.mem_cons_of_mem c h
    have h3 := mem_of_mem_dropWhile h2
    rwa [List.mem_reverse] at h3

theorem slash_not_mem_stem (p : FPath) : '/' ∉ stem p :=
  fun h => slash_not_mem_basename p (mem_basename_of_mem_stem p h)

theorem digitChar_ne_slash (d : Nat) (hd : d < 10) : digitChar d ≠ '/' := by
  interval_cases d <;> decide

theorem natStr_no_slash (n : Nat) : '/' ∉ natStr n := by
  induction n using Nat.strong_induction_on with
  | _ n ih =>
    rw [natStr]
    split
    · rename_i h
      intro hmem
      exact digitChar_ne_slash n h (List.mem_singleton.mp hmem).symm
    · rename_i h
      intro hmem
      rcases List.mem_append.mp hmem with h2 | h2
      · exact ih (n / 10) (Nat.div_lt_self (by omega) (by omega)) h2
      · exact digitChar_ne_slash (n % 10) (Nat.mod_lt n (by omega))
          (List.mem_singleton.mp h2).symm

theorem pkgPartName_no_slash (filePath : FPath) (i : Nat) :
    '/' ∉ pkgPartName filePath i := by
  intro h
  simp only [pkgPartName] at h
  rcases List.mem_append.mp h with h2 | h2
  · rcases List.mem_append.mp h2 with h3 | h3
    · exact slash_not_mem_stem filePath h3
    · exact absurd h3 (by decide)
  · simp only [zfill] at h2
    rcases List.mem_append.mp h2 with h3 | h3
    · exact absurd (List.mem_replicate.mp h3).2 (by decide)
    · exact natStr_no_slash i h3

theorem mem_of_isPrefixOf_mem {l1 l2 : List Char} {c : Char}
    (hp : l1.isPrefixOf l2 = true) (hc : c ∈ l1) : c ∈ l2 := by
  induction l1 generalizing l2 with
  | nil => simp at hc
  | cons a as ih =>
    cases l2 with
    | nil => simp [List.isPrefixOf] at hp
    | cons b bs =>
      simp only [List.isPrefixOf, Bool.and_eq_true] at hp
      obtain ⟨hab, hrec⟩ := hp
      rcases List.mem_cons.mp hc with heq | h2
      · rw [heq, beq_iff_eq.mp hab]
        exact List.mem_cons_self b bs
      · exact List.mem_cons_of_mem b (ih hrec h2)

theorem globStar_eq_nil {pat : FPath} {files : List FPath} (c : Char)
    (hc : c ∈ pat) (hfiles : ∀ f ∈ files, c ∉ f) : globStar pat files = [] := by
  simp only [globStar]
  refine List.filter_eq_nil_iff.mpr ?_
  intro f hf hp
  exact hfiles f hf (mem_of_isPrefixOf_mem hp hc)

theorem slash_mem_pkgNewFilePath (base : FPath) : '/' ∈ pkgNewFilePath base := by
  simp only [pkgNewFilePath]
  exact List.mem_append_left _ (List.mem_append_left _ (List.mem_append_right _ (by decide)))

theorem splitPkg_written (filePath : FPath) (data : Bytes)
    (h : ¬ data.length < splitThreshold) :
    (SplitPkgThread.run filePath data).written =
      (readChunks splitThreshold data).enum.map
        (fun q => (pkgPartName filePath q.1, q.2)) := by
  unfold SplitPkgThread.run
  rw [if_neg h]

end Myrient

namespace Myrient

theorem enum_map_pair_snd {α β : Type} (l : List α) (f : Nat → β) :
    (l.enum.map (fun q => (f q.1, q.2))).map Prod.snd = l := by
  rw [List.map_map]
  have h : (Prod.snd ∘ fun q : Nat × α => (f q.1, q.2)) = Prod.snd := rfl
  rw [h, List.enum_map_snd]

theorem splitIso_written (filePath : FPath) (data : Bytes)
    (h : ¬ data.length < splitThreshold) :
    (SplitIsoThread.run filePath data).written =
      (readChunks splitThreshold data).enum.map
        (fun q => (isoPartName filePath q.1, q.2)) := by
  unfold SplitIsoThread.run
  rw [if_neg h]

theorem splitIso_progress (filePath : FPath) (data : Bytes)
    (h : ¬ data.length < splitThreshold) :
    (SplitIsoThread.run filePath data).progress =
      (List.range (readChunks splitThreshold data).length).map
        (fun i => (i + 1, ceilDiv data.length splitThreshold)) := by
  unfold SplitIsoThread.run
  rw [if_neg h]

theorem splitPkg_progress (filePath : FPath) (data : Bytes)
    (h : ¬ data.length < splitThreshold) :
    (SplitPkgThread.run filePath data).progress =
      (List.range (readChunks splitThreshold data).length).map
        (fun i => (i + 1, ceilDiv data.length splitThreshold)) := by
  unfold SplitPkgThread.run
  rw [if_neg h]

/-- C2: for a file whose size is at least the threshold, both splitter threads read
it sequentially in chunks of the threshold size (every part except possibly the
last has exactly the threshold length), produce exactly
ceil(size / 4294967295) parts in file byte order -- also the total used by the
per-part progress reports -- and the concatenation of the parts in order
reproduces the original byte sequence exactly. -/
theorem c2_split_roundtrip (filePath : FPath) (data : Bytes)
    (hsize : splitThreshold ≤ data.length) :
    (((SplitIsoThread.run filePath data).written.map Prod.snd).flatten = data ∧
     (SplitIsoThread.run filePath data).written.length
        = ceilDiv data.length splitThreshold ∧
     (∀ ch ∈ ((SplitIsoThread.run filePath data).written.map Prod.snd).dropLast,
        ch.length = splitThreshold) ∧
     (SplitIsoThread.run filePath data).progress =
       (List.range (ceilDiv data.length splitThreshold)).map
         (fun i => (i + 1, ceilDiv data.length splitThreshold))) ∧
    (((SplitPkgThread.run filePath data).written.map Prod.snd).flatten = data ∧
     (SplitPkgThread.run filePath data).written.length
        = ceilDiv data.length splitThreshold ∧
     (∀ ch ∈ ((SplitPkgThread.run filePath data).written.map Prod.snd).dropLast,
        ch.length = splitThreshold) ∧
     (SplitPkgThread.run filePath data).progress =
       (List.range (ceilDiv data.length splitThreshold)).map
         (fun i => (i + 1, ceilDiv data.length splitThreshold))) := by
  have hc : splitThreshold ≠ 0 := by decide
  have hnlt : ¬ data.length < splitThreshold := by omega
  have hlen := readChunks_length splitThreshold hc data
  constructor
  · rw [splitIso_written filePath data hnlt, splitIso_progress filePath data hnlt,
      enum_map_pair_snd]
    refine ⟨readChunks_flatten splitThreshold hc data, ?_, ?_, ?_⟩
    · rw [List.length_map, List.enum_length]
      exact hlen
    · exact fun ch hch =>
        readChunks_dropLast_aux splitThreshold hc data.length data le_rfl ch hch
    · rw [hlen]
  · rw [splitPkg_written filePath data hnlt, splitPkg_progress filePath data hnlt,
      enum_map_pair_snd]
    refine ⟨readChunks_flatten splitThreshold hc data, ?_, ?_, ?_⟩
    · rw [List.length_map, List.enum_length]
      exact hlen
    · exact fun ch hch =>
        readChunks_dropLast_aux splitThreshold hc data.length data le_rfl ch hch
    · rw [hlen]

/-- Witness for C2 at a concrete threshold-sized file. -/
theorem c2_split_roundtrip_witness :
    splitThreshold ≤ (List.replicate splitThreshold 0).length ∧
    ((SplitIsoThread.run (("processing/a.iso").data)
        (List.replicate splitThreshold 0)).written.map Prod.snd).flatten
      = List.replicate splitThreshold 0 := by
  have h : splitThreshold ≤ (List.replicate splitThreshold 0).length := by simp
  exact ⟨h, (c2_split_roundtrip (("processing/a.iso").data)
    (List.replicate splitThreshold 0) h).1.1⟩

/-- C3 counterexample: on a below-threshold file SplitIsoThread.run emits the
finished signal with the empty list, not with exactly one path equal to the
input path. -/
theorem c3_counterexample :
    (SplitIsoThread.run (("processing/game.iso").data) [0]).finishedEmitted
      ≠ [("processing/game.iso").data] := by
  decide

/-- C3 amended: below the threshold neither splitter writes any part or removes
the source file, and the no-split outcome is signalled by status False together
with (for the ISO splitter) a finished signal carrying the empty list -- not a
singleton list holding the input path. -/
theorem c3_below_threshold_no_split (filePath : FPath) (data : Bytes)
    (hsize : data.length < splitThreshold) :
    SplitIsoThread.run filePath data =
      { statusEmitted := false, written := [], progress := [], finishedEmitted := [] } ∧
    SplitPkgThread.run filePath data =
      { statusEmitted := false, written := [], progress := [], sourceRemoved := false } := by
  constructor
  · unfold SplitIsoThread.run
    rw [if_pos hsize]
  · unfold SplitPkgThread.run
    rw [if_pos hsize]

/-- Witness for the amended C3 at a concrete one-byte file. -/
theorem c3_below_threshold_no_split_witness :
    ([0] : Bytes).length < splitThreshold ∧
    SplitIsoThread.run (("processing/game.iso").data) [0] =
      { statusEmitted := false, written := [], progress := [], finishedEmitted := [] } := by
  have h : ([0] : Bytes).length < splitThreshold := by decide
  exact ⟨h, (c3_below_threshold_no_split (("processing/game.iso").data) [0] h).1⟩

/-- C10: when the PKG splitter runs on the staged path processing-slash-base.pkg,
every part it writes is named with only the stem of that path -- the names
contain no slash, so the files land in the process's current working directory
instead of the staging directory -- and the subsequent glob for
new_file_path ++ ".666*" in handle_psn_files matches none of them. -/
theorem c10_pkg_parts_lost (base : FPath) (data : Bytes)
    (hsize : splitThreshold ≤ data.length) :
    (SplitPkgThread.run (pkgNewFilePath base) data).written ≠ [] ∧
    (∀ q ∈ (SplitPkgThread.run (pkgNewFilePath base) data).written, '/' ∉ q.1) ∧
    globStar (pkgNewFilePath base ++ (".666").data)
      ((SplitPkgThread.run (pkgNewFilePath base) data).written.map Prod.fst) = [] := by
  have hc : splitThreshold ≠ 0 := by decide
  have hnlt : ¬ data.length < splitThreshold := by omega
  have hpos : 0 < data.length := by
    have h0 : 0 < splitThreshold := by decide
    omega
  have hdata : data ≠ [] := by
    intro hd
    rw [hd] at hpos
    simp at hpos
  have hwr := splitPkg_written (pkgNewFilePath base) data hnlt
  have hnoslash : ∀ q ∈ (SplitPkgThread.run (pkgNewFilePath base) data).written,
      '/' ∉ q.1 := by
    intro q hq
    rw [hwr] at hq
    obtain ⟨⟨i, ch⟩, hmem, heq⟩ := List.mem_map.mp hq
    rw [← heq]
    exact pkgPartName_no_slash (pkgNewFilePath base) i
  refine ⟨?_, hnoslash, ?_⟩
  · rw [hwr]
    intro hnil
    have h2 : (readChunks splitThreshold data).length = 0 := by
      have h3 := congrArg List.length hnil
      rwa [List.length_map, List.enum_length, List.length_nil] at h3
    exact readChunks_ne_nil splitThreshold hc data hdata
      (List.eq_nil_of_length_eq_zero h2)
  · refine globStar_eq_nil '/' ?_ ?_
    · exact List.mem_append_left _ (slash_mem_pkgNewFilePath base)
    · intro f hf
      obtain ⟨q, hq, heq⟩ := List.mem_map.mp hf
      rw [← heq]
      exact hnoslash q hq

/-- Witness for C10 at a concrete threshold-sized PKG. -/
theorem c10_pkg_parts_lost_witness :
    splitThreshold ≤ (List.replicate splitThreshold 0).length ∧
    globStar (pkgNewFilePath (("game").data) ++ (".666").data)
      ((SplitPkgThread.run (pkgNewFilePath (("game").data))
        (List.replicate splitThreshold 0)).written.map Prod.fst) = [] := by
  have h : splitThreshold ≤ (List.replicate splitThreshold 0).length := by simp
  exact ⟨h, (c10_pkg_parts_lost (("game").data)
    (List.replicate splitThreshold 0) h).2.2⟩

end Myrient

namespace Myrient

/-! Filesystem-operation executor lemmas. -/

theorem fileOps_run_props (ops : List Operation) : ∀ fs : FS,
    (FileOperationsThread.run ops fs).outcomes.length = ops.length ∧
    (FileOperationsThread.run ops fs).finishedEmitted = true ∧
    (FileOperationsThread.run ops fs).log.countP Msg.isPerformed
      = (FileOperationsThread.run ops fs).outcomes.count true := by
  induction ops with
  | nil =>
    intro fs
    simp [FileOperationsThread.run]
  | cons o rest ih =>
    intro fs
    cases h : applyOp fs o with
    | ok fs2 =>
      have ih2 := ih fs2
      simp only [FileOperationsThread.run, h]
      refine ⟨?_, ih2.2.1, ?_⟩
      · simp [ih2.1]
      · simp [List.countP_cons, List.count_cons, Msg.isPerformed, ih2.2.2]
    | error e =>
      have ih2 := ih fs
      simp only [FileOperationsThread.run, h]
      refine ⟨?_, ih2.2.1, ?_⟩
      · simp [ih2.1]
      · simp [List.countP_cons, List.count_cons, Msg.isPerformed, ih2.2.2]

/-- C6: the filesystem-operation executor attempts every operation in list order
and always runs to completion (one recorded outcome per operation, finished signal
emitted, one performed-operation acknowledgment per success regardless of type);
in the concrete scenario of one failing between two valid operations, all three
are attempted and exactly the two valid ones are performed. -/
theorem c6_fileops_best_effort :
    (∀ (ops : List Operation) (fs : FS),
      (FileOperationsThread.run ops fs).outcomes.length = ops.length ∧
      (FileOperationsThread.run ops fs).finishedEmitted = true ∧
      (FileOperationsThread.run ops fs).log.countP Msg.isPerformed
        = (FileOperationsThread.run ops fs).outcomes.count true) ∧
    (FileOperationsThread.run demoOps demoFS).outcomes = [true, false, true] ∧
    (FileOperationsThread.run demoOps demoFS).fs
      = [(("b").data, false), (("d").data, false)] ∧
    (FileOperationsThread.run demoOps demoFS).log =
      [.attempting (.rename (("a").data) (("b").data)), .performed .rename,
       .attempting (.remove (("x").data)), .errorDuring .remove,
       .attempting (.move (("c").data) (("d").data)), .performed .move] := by
  refine ⟨fun ops fs => fileOps_run_props ops fs, ?_, ?_, ?_⟩ <;> decide

/-! Retry-loop lemmas. -/

theorem retryLoopFrom_delays (succeeds : Nat → Bool) (jitter : Nat → ℚ)
    (retries : Nat) :
    ∀ (n i : Nat), retries - i ≤ n →
      ∀ p ∈ (retryLoopFrom succeeds jitter retries i).1,
        p.1 < retries ∧ p.2 = backoffDelay p.1 (jitter p.1) := by
  intro n
  induction n with
  | zero =>
    intro i hn p hp
    rw [retryLoopFrom] at hp
    rw [dif_neg (by omega)] at hp
    simp at hp
  | succ n ih =>
    intro i hn p hp
    rw [retryLoopFrom] at hp
    by_cases hi : i < retries
    · rw [dif_pos hi] at hp
      by_cases hs : succeeds i = true
      · rw [if_pos hs] at hp
        simp at hp
      · rw [if_neg hs] at hp
        by_cases hl : i = retries - 1
        · rw [if_pos hl] at hp
          obtain heq := List.mem_singleton.mp hp
          rw [heq]
          exact ⟨hi, rfl⟩
        · rw [if_neg hl] at hp
          rcases List.mem_cons.mp hp with heq | h2
          · rw [heq]
            exact ⟨hi, rfl⟩
          · exact ih (i + 1) (by omega) p h2
    · rw [dif_neg hi] at hp
      simp at hp

theorem retryLoopFrom_exhausted (succeeds : Nat → Bool) (jitter : Nat → ℚ)
    (retries : Nat) (hfail : ∀ k, succeeds k = false) :
    ∀ (n i : Nat), retries - i ≤ n → i < retries →
      (retryLoopFrom succeeds jitter retries i).2 = .exhausted (retries - 1) := by
  intro n
  induction n with
  | zero =>
    intro i hn hi
    omega
  | succ n ih =>
    intro i hn hi
    rw [retryLoopFrom]
    rw [dif_pos hi]
    rw [if_neg (by simp [hfail i])]
    by_cases hl : i = retries - 1
    · rw [if_pos hl]
      rw [hl]
    · rw [if_neg hl]
      exact ih (i + 1) (by omega) (by omega)

/-- C5: on transient transfer errors the downloader makes at most the configured
number of attempts; the backoff slept after failed attempt i (before the retry that
follows it) lies in the interval from 2 to the power i (inclusive) to
2 to the power i plus one (exclusive); and if every attempt fails the loop ends by
re-raising the terminating error of the last attempt. -/
theorem c5_retry_backoff (succeeds : Nat → Bool) (jitter : Nat → ℚ) (retries : Nat)
    (hj : ∀ i, 0 ≤ jitter i ∧ jitter i < 1) :
    (∀ p ∈ (DownloadThread.retryLoop succeeds jitter retries).1,
      p.1 < retries ∧ (2 : ℚ) ^ p.1 ≤ p.2 ∧ p.2 < 2 ^ p.1 + 1) ∧
    ((∀ k, succeeds k = false) → 0 < retries →
      (DownloadThread.retryLoop succeeds jitter retries).2
        = .exhausted (retries - 1)) := by
  constructor
  · intro p hp
    have h := retryLoopFrom_delays succeeds jitter retries retries 0 (by omega) p hp
    refine ⟨h.1, ?_, ?_⟩
    · rw [h.2, backoffDelay]
      have hj1 := (hj p.1).1
      linarith
    · rw [h.2, backoffDelay]
      have hj2 := (hj p.1).2
      linarith
  · intro hfail hpos
    exact retryLoopFrom_exhausted succeeds jitter retries hfail retries 0 (by omega) hpos

/-- Witness for C5: two attempts, both failing, zero jitter. -/
theorem c5_retry_backoff_witness :
    (∀ i : Nat, (0 : ℚ) ≤ (fun _ : Nat => (0 : ℚ)) i ∧ (fun _ : Nat => (0 : ℚ)) i < 1) ∧
    (DownloadThread.retryLoop (fun _ => false) (fun _ => (0 : ℚ)) 2).2 = .exhausted 1 := by
  refine ⟨fun i => ⟨le_refl 0, zero_lt_one⟩, ?_⟩
  exact (c5_retry_backoff (fun _ => false) (fun _ => (0 : ℚ)) 2
    (fun i => ⟨le_refl 0, zero_lt_one⟩)).2 (fun k => rfl) (by decide)

end Myrient

namespace Myrient

/-- C1 (code bug evaluated at the failing input): a non-zero exit code from the
decryption tool makes CommandRunner.run raise CalledProcessError, which nothing
catches, so the finished signal is not emitted and the dispatcher never advances
past the item; with exit code zero the stage completes and the dispatcher
advances. -/
theorem c1_tool_failure_unhandled :
    CommandRunner.run 1 = .error { returncode := 1 } ∧
    decryptStageAdvances 1 = false ∧
    CommandRunner.run 0 = .ok () ∧
    decryptStageAdvances 0 = true :=
  ⟨rfl, rfl, rfl, rfl⟩

/-- C4: with the destination zip already on disk, equal local and remote sizes make
downloadhelper call back immediately without constructing a DownloadThread (so no
payload byte is read); a smaller local size makes it start a download whose first
attempt sends a range request starting exactly at the local size, appends the
payload to the existing bytes, and -- for a compliant 206 response carrying the
missing suffix -- ends with exactly the remote total size. -/
theorem c4_preflight_resume (localSize remoteSize : Nat) :
    (localSize = remoteSize →
      downloadhelper false true localSize (some remoteSize) = .callbackZip) ∧
    (localSize < remoteSize →
      downloadhelper false true localSize (some remoteSize) = .startDownload ∧
      buildRequest true localSize = some localSize ∧
      ∀ localBytes body : Bytes, localBytes.length = localSize →
        body.length = remoteSize - localSize →
        downloadAttempt localBytes
          { status := 206, contentRangeTotal := some remoteSize,
            contentLength := none, body := body } = .ok (localBytes ++ body) ∧
        (localBytes ++ body).length = remoteSize) := by
  constructor
  · intro heq
    subst heq
    simp [downloadhelper]
  · intro hlt
    refine ⟨?_, ?_, ?_⟩
    · simp [downloadhelper, hlt]
    · simp [buildRequest]
    · intro localBytes body hl hb
      constructor
      · simp [downloadAttempt]
      · rw [List.length_append]
        omega

/-- Witness for C4: local 7 equals remote 7; local 3 resumes against remote 7. -/
theorem c4_preflight_resume_witness :
    downloadhelper false true 7 (some 7) = .callbackZip ∧
    downloadhelper false true 3 (some 7) = .startDownload ∧
    buildRequest true 3 = some 3 ∧
    (([0, 0, 0] ++ [1, 1, 1, 1] : Bytes)).length = 7 := by
  refine ⟨(c4_preflight_resume 7 7).1 rfl, ?_, ?_, ?_⟩
  · exact ((c4_preflight_resume 3 7).2 (by decide)).1
  · exact ((c4_preflight_resume 3 7).2 (by decide)).2.1
  · exact (((c4_preflight_resume 3 7).2 (by decide)).2.2 [0, 0, 0] [1, 1, 1, 1] rfl rfl).2

/-- C7 counterexample: adding an item to an empty queue (with an empty queue file)
leaves the persisted contents unchanged -- add_to_queue never serializes, so the
persisted queue does not reflect the enqueue. -/
theorem c7_counterexample :
    (add_to_queue { queueList := [], savedQueue := [] } ((("g").data, 0))).queueList ≠
    (add_to_queue { queueList := [], savedQueue := [] } ((("g").data, 0))).savedQueue := by
  decide

/-- C7 amended: the queue is serialized to durable storage after every UI removal,
on graceful shutdown, and when a completed head item leaves the queue empty; an
enqueue never serializes, and a mid-run dequeue with items remaining does not
serialize either, so the persisted contents can lag the live queue until one of
the serializing events occurs. -/
theorem c7_persistence_points (st : AppState) (item : QueueItem)
    (selected : QueueItem → Bool) :
    (remove_from_queue st selected).savedQueue
      = (remove_from_queue st selected).queueList ∧
    (closeEvent st).savedQueue = (closeEvent st).queueList ∧
    (add_to_queue st item).savedQueue = st.savedQueue ∧
    (completeHeadItem st).queueList = st.queueList.tail ∧
    (completeHeadItem st).savedQueue =
      (if st.queueList.tail.isEmpty then st.queueList.tail else st.savedQueue) := by
  refine ⟨rfl, rfl, ?_, ?_, ?_⟩
  · unfold add_to_queue
    split
    · rfl
    · rfl
  · unfold completeHeadItem
    split
    · rfl
    · rfl
  · unfold completeHeadItem
    split
    · rfl
    · rfl

theorem downloadWriteLoop_writes_all (running : Nat → Bool) :
    ∀ (k : Nat) (chunks : List Bytes), downloadWriteLoop running k chunks = chunks := by
  intro k chunks
  induction chunks generalizing k with
  | nil => rfl
  | cons c rest ih =>
    rw [downloadWriteLoop]
    rw [ih (k + 1)]

/-- C8 (code bug evaluated at the failing input): the downloader's chunk loop never
consults the stop flag, so every remaining chunk is written even when the flag is
already false, while the extractor's entry loop does check the flag and extracts
nothing once it is false. -/
theorem c8_downloader_ignores_stop :
    (∀ (running : Nat → Bool) (chunks : List Bytes),
      downloadWriteLoop running 0 chunks = chunks) ∧
    downloadWriteLoop (fun _ => false) 0 [[7]] = [[7]] ∧
    UnzipRunner.run (("a.zip").data) (("out").data)
      [{ filename := ("f").data, fileSize := 5 }] (fun _ => false) = .ok ([], []) := by
  refine ⟨fun r c => downloadWriteLoop_writes_all r 0 c, ?_, ?_⟩
  · rfl
  · rfl

/-- C9 counterexample: an archive with no entries has zero total uncompressed size,
yet extraction completes and emits the empty list instead of raising. -/
theorem c9_counterexample :
    (([] : List ZipEntry).map ZipEntry.fileSize).sum = 0 ∧
    UnzipRunner.run (("a.zip").data) (("out").data) [] (fun _ => true) = .ok ([], []) :=
  ⟨rfl, rfl⟩

/-- C9 amended: for a zip archive with at least one entry whose total uncompressed
size is zero (for example only zero-byte entries), the first progress computation
divides by zero, so the run raises instead of completing and emitting the
extracted-file list; an entry-less archive instead completes with the empty
list. -/
theorem c9_zero_total_raises (zipPath outputPath : FPath) (entries : List ZipEntry)
    (running : Nat → Bool) (hzip : endsWithZip zipPath = true)
    (htotal : (entries.map ZipEntry.fileSize).sum = 0)
    (hne : entries ≠ []) (hrun : running 0 = true) :
    UnzipRunner.run zipPath outputPath entries running = .error () := by
  unfold UnzipRunner.run
  rw [if_neg (by simp [hzip])]
  rw [htotal]
  cases entries with
  | nil => exact absurd rfl hne
  | cons e rest =>
    rw [unzipRunFrom]
    rw [if_pos hrun, if_pos rfl]

/-- Witness for the amended C9: a zip with one zero-byte entry raises. -/
theorem c9_zero_total_raises_witness :
    endsWithZip (("a.zip").data) = true ∧
    UnzipRunner.run (("a.zip").data) (("out").data)
      [{ filename := ("f").data, fileSize := 0 }] (fun _ => true) = .error () := by
  refine ⟨rfl, ?_⟩
  exact c9_zero_total_raises (("a.zip").data) (("out").data)
    [{ filename := ("f").data, fileSize := 0 }] (fun _ => true) rfl rfl
    (List.cons_ne_nil _ _) rfl

end Myrient
